import Mathlib

/-!
Verification of the core text algorithms of the resume builder:
text normalization, keyword extraction, ATS scoring
(`models/resume_generator_enhanced.py`) and the template composers for
professional summaries and cover letters
(`models/cover_letter_enhanced.py`).

Texts are modelled as `List Char`.  Python string/regex primitives are
embedded for the ASCII range (the repository's literals are ASCII apart
from a few typographic punctuation characters, which are modelled
explicitly).  Python `round` on the intermediate float `70 * ratio` is
modelled as exact rational rounding half-to-even, and the float literal
`0.06` as the rational `6/100`.
-/

namespace ResumeBuilder

/-- A Python `str`, modelled as a list of characters. -/
abbrev Str := List Char

/-- Python whitespace (`\s`, `str.strip`, `str.isspace`), ASCII range. -/
def pyIsSpace (c : Char) : Bool :=
  c = ' ' || c = '\t' || c = '\n' || c = '\r' || c = '\x0b' || c = '\x0c'

/-- Line-break characters recognised by Python `str.splitlines`. -/
def isLineBreak (c : Char) : Bool :=
  c = '\n' || c = '\r' || c = '\x0b' || c = '\x0c' || c = '\x1c' ||
  c = '\x1d' || c = '\x1e' || c = '\x85' || c = '\u2028' || c = '\u2029'

/-- The regex class `[A-Za-z]`. -/
def asciiAlpha (c : Char) : Bool :=
  (65 ≤ c.toNat && c.toNat ≤ 90) || (97 ≤ c.toNat && c.toNat ≤ 122)

/-- The regex class `[A-Za-z\-\+\.]` (continuation characters of `_word_re`). -/
def contChar (c : Char) : Bool :=
  asciiAlpha c || c = '-' || c = '+' || c = '.'

/-- Python `str.lower`, ASCII range. -/
def pyToLower (c : Char) : Char :=
  if 65 ≤ c.toNat ∧ c.toNat ≤ 90 then Char.ofNat (c.toNat + 32) else c

/-- Python word characters (`\w`) for the `\b` boundaries, ASCII range. -/
def isWordChar (c : Char) : Bool := c.isAlphanum || c = '_'

/-- One pass of `re.sub(r"\s+", " ", text)`: the flag records whether the
previous character was whitespace (whose run has already emitted its single
space). -/
def collapseWSAux : Bool → Str → Str
  | _, [] => []
  | prev, c :: cs =>
    if pyIsSpace c then
      (if prev then collapseWSAux true cs else ' ' :: collapseWSAux true cs)
    else c :: collapseWSAux false cs

/-- `_whitespace_re.sub(" ", text)`: collapse every whitespace run to one space. -/
def collapseWS (s : Str) : Str := collapseWSAux false s

/-- Remove trailing whitespace (the right half of Python `str.strip`). -/
def dropTrailWS : Str → Str
  | [] => []
  | c :: cs =>
    let r := dropTrailWS cs
    if r = [] ∧ pyIsSpace c then [] else c :: r

/-- Python `str.strip()`. -/
def pyStrip (s : Str) : Str := dropTrailWS (s.dropWhile pyIsSpace)

/-- Remove trailing `'.'` characters: Python `str.rstrip('.')`. -/
def dropTrailDots : Str → Str
  | [] => []
  | c :: cs =>
    let r := dropTrailDots cs
    if r = [] ∧ c = '.' then [] else c :: r

/-- Python `str.splitlines`.  `acc` holds the current line reversed; the
flag records that the previous character was `'\r'`, so that a following
`'\n'` is part of the same `"\r\n"` break. -/
def splitlinesAux : Bool → Str → Str → List Str
  | _, acc, [] => if acc.isEmpty then [] else [acc.reverse]
  | afterCR, acc, c :: cs =>
    if afterCR ∧ c = '\n' then splitlinesAux false acc cs
    else if c = '\r' then acc.reverse :: splitlinesAux true [] cs
    else if isLineBreak c then acc.reverse :: splitlinesAux false [] cs
    else splitlinesAux false (c :: acc) cs

/-- Python `text.splitlines()`. -/
def splitlines (s : Str) : List Str := splitlinesAux false [] s

/-- `re.sub(r"\n{3,}", "\n\n", s)`: `k` counts the newlines already kept in
the current run; a run keeps at most two. -/
def collapseNLAux : Nat → Str → Str
  | _, [] => []
  | k, c :: cs =>
    if c = '\n' then
      (if k < 2 then '\n' :: collapseNLAux (k + 1) cs else collapseNLAux k cs)
    else c :: collapseNLAux 0 cs

/-- Collapse runs of three or more newlines to exactly two. -/
def collapseNL (s : Str) : Str := collapseNLAux 0 s

/-- Python `sep.join(xs)`. -/
def joinSep (sep : Str) : List Str → Str
  | [] => []
  | [x] => x
  | x :: y :: ys => x ++ sep ++ joinSep sep (y :: ys)

/-- `str(n)` for a Python int. -/
def intRepr (n : Int) : Str := (toString n).data

/-- `_normalize_text`: lower-case, replace the typographic apostrophe and
en/em dashes, collapse whitespace runs to single spaces, strip. -/
def normalize_text (text : Str) : Str :=
  pyStrip (collapseWS ((text.map pyToLower).map
    (fun c => if c = '’' then '\'' else if c = '–' ∨ c = '—' then '-' else c)))

/-- `_cleanup_spaces`: `_whitespace_re.sub(" ", text).strip()`. -/
def cleanup_spaces (s : Str) : Str := pyStrip (collapseWS s)

/-- `_word_re.findall(text)` for `_word_re = [A-Za-z][A-Za-z\-\+\.]{1,}`.
The scanner state holds the reversed characters of the current candidate
token (started at a `[A-Za-z]` character); a candidate is emitted only when
at least one continuation character followed, exactly as the regex requires.
Since every `[A-Za-z]` character is also a continuation character, a failed
one-character candidate resumes scanning at the very position the regex
engine would retry. -/
def findTokensAux : Option Str → Str → List Str
  | none, [] => []
  | some acc, [] => if 2 ≤ acc.length then [acc.reverse] else []
  | none, c :: cs =>
    if asciiAlpha c then findTokensAux (some [c]) cs else findTokensAux none cs
  | some acc, c :: cs =>
    if contChar c then findTokensAux (some (c :: acc)) cs
    else (if 2 ≤ acc.length then [acc.reverse] else []) ++ findTokensAux none cs

/-- All matches of `_word_re` in `text`. -/
def findTokens (text : Str) : List Str := findTokensAux none text

/-- The stopword set of `_extract_keywords`, transcribed verbatim. -/
def stopwords : List Str :=
  ["and".data, "the".data, "for".data, "with".data, "from".data, "that".data,
   "this".data, "have".data, "has".data, "had".data, "are".data, "was".data,
   "were".data, "been".data, "to".data, "of".data, "in".data, "on".data,
   "at".data, "as".data, "by".data, "or".data, "an".data, "a".data, "it".data,
   "is".data, "be".data, "will".data, "can".data, "may".data, "your".data,
   "you".data, "we".data, "our".data, "their".data, "they".data, "them".data,
   "i".data, "my".data, "me".data, "us".data, "role".data, "job".data,
   "work".data, "team".data, "ability".data, "skills".data, "experience".data,
   "years".data, "including".data]

/-- `[t.lower() for t in self._word_re.findall(text)]`. -/
def tokenize (text : Str) : List Str :=
  (findTokens text).map (fun t => t.map pyToLower)

/-- `[t for t in tokens if len(t) >= 3 and t not in stop]`. -/
def filtered_tokens (text : Str) : List Str :=
  (tokenize text).filter (fun t => decide (3 ≤ t.length) && decide (t ∉ stopwords))

/-- First-occurrence deduplication: the key order of a Python `Counter`
(dict insertion order) built from a token list. -/
def firstDedupAux (seen : List Str) : List Str → List Str
  | [] => []
  | t :: ts =>
    if t ∈ seen then firstDedupAux seen ts else t :: firstDedupAux (t :: seen) ts

/-- The distinct tokens of `l` in first-occurrence order. -/
def firstDedup (l : List Str) : List Str := firstDedupAux [] l

/-- Position of the first occurrence of `w` in `l`. -/
def firstIdx (w : Str) : List Str → Nat
  | [] => 0
  | t :: ts => if t = w then 0 else firstIdx w ts + 1

/-- The ordering used by `Counter.most_common`: larger count first, ties
broken by first-occurrence position (CPython's `heapq.nlargest` is
equivalent to a stable descending sort over the insertion-ordered items). -/
def rankRel (a b : Nat × Str × Nat) : Prop :=
  b.2.2 < a.2.2 ∨ (a.2.2 = b.2.2 ∧ a.1 ≤ b.1)

instance : DecidableRel rankRel := fun a b =>
  inferInstanceAs (Decidable (b.2.2 < a.2.2 ∨ (a.2.2 = b.2.2 ∧ a.1 ≤ b.1)))

instance : IsTotal (Nat × Str × Nat) rankRel :=
  ⟨by intro a b; unfold rankRel; omega⟩

instance : IsTrans (Nat × Str × Nat) rankRel :=
  ⟨by intro a b c; unfold rankRel; omega⟩

/-- The counter items of a token list: for each distinct token in
first-occurrence order, its first-occurrence position and its count. -/
def keyword_items (toks : List Str) : List (Nat × Str × Nat) :=
  (firstDedup toks).map (fun w => (firstIdx w toks, w, toks.count w))

/-- `Counter(toks).most_common(n)`, keeping only the words. -/
def mostCommon (n : Nat) (toks : List Str) : List Str :=
  ((List.insertionSort rankRel (keyword_items toks)).map (fun x => x.2.1)).take n

/-- `_extract_keywords`: tokenize, filter by length and stopwords, return up
to 80 distinct tokens by descending frequency. -/
def extract_keywords (text : Str) : List Str :=
  mostCommon 80 (filtered_tokens text)

/-- `w` occurs in `s` at the head position with a `\b` boundary after it. -/
def wordAtHead (w s : Str) : Bool :=
  w.isPrefixOf s &&
    (match s.drop w.length with
     | [] => true
     | c :: _ => !isWordChar c)

/-- Scanner for `re.search(r"\bw\b", s)`: the flag records whether the
previous character was a word character (for the leading boundary). -/
def containsWordAux (w : Str) : Bool → Str → Bool
  | _, [] => false
  | prev, c :: cs =>
    (!prev && wordAtHead w (c :: cs)) || containsWordAux w (isWordChar c) cs

/-- Whether `re.search(r"\bw\b", s)` finds a match (for a pattern `w` whose
first and last characters are word characters). -/
def containsWord (w s : Str) : Bool := containsWordAux w false s

/-- `_count_long_lines(text, threshold=120)`. -/
def count_long_lines (text : Str) : Nat :=
  ((splitlines text).filter (fun line => decide (120 < line.length))).length

/-- `_symbol_density`: non-alphanumeric non-whitespace characters over total
length, `0.0` on the empty string. -/
def symbol_density (text : Str) : ℚ :=
  if text = [] then 0
  else ((text.filter (fun ch => !ch.isAlphanum && !pyIsSpace ch)).length : ℚ) /
    (max 1 text.length : ℚ)

/-- Python 3 `round` to an integer: nearest, ties to even (modelled on exact
rationals). -/
def pyRound (q : ℚ) : ℤ :=
  if q - ⌊q⌋ < 1 / 2 then ⌊q⌋
  else if 1 / 2 < q - ⌊q⌋ then ⌊q⌋ + 1
  else if Even ⌊q⌋ then ⌊q⌋ else ⌊q⌋ + 1

/-- Python `sorted` on a collection of distinct strings (lexicographic by
code point). -/
def sortLex (l : List Str) : List Str := List.insertionSort (· ≤ ·) l

/-- `self._extract_keywords(self._normalize_text(resume_text))`. -/
def resume_keywords (resume_text : Str) : List Str :=
  extract_keywords (normalize_text resume_text)

/-- `set(jd_keywords)` as a list in first-occurrence order (the extractor's
output is already duplicate-free, so this is just the keyword list). -/
def jd_keyword_set (job_description : Str) : List Str :=
  firstDedup (extract_keywords (normalize_text job_description))

/-- `sorted(set(resume_keywords).intersection(set(jd_keywords)))`. -/
def matched_sorted (resume_text job_description : Str) : List Str :=
  sortLex ((jd_keyword_set job_description).filter
    (fun k => decide (k ∈ resume_keywords resume_text)))

/-- `sorted(set(jd_keywords).difference(set(resume_keywords)))`. -/
def missing_sorted (resume_text job_description : Str) : List Str :=
  sortLex ((jd_keyword_set job_description).filter
    (fun k => decide (k ∉ resume_keywords resume_text)))

/-- `int(round(70 * len(matched) / max(1, len(set(jd_keywords)))))`. -/
def base_score (resume_text job_description : Str) : ℤ :=
  pyRound (70 * ((matched_sorted resume_text job_description).length : ℚ) /
    (max 1 (jd_keyword_set job_description).length : ℚ))

/-- The section headings reported missing, in the source's dict order
(`experience`, `education`, `skills`), each detected by the corresponding
word-boundary regex search over the normalized resume text. -/
def sections_missing (resume_text : Str) : List Str :=
  let cl := normalize_text resume_text
  (if containsWord "experience".data cl || containsWord "employment".data cl ||
      containsWord "work history".data cl then [] else ["experience".data]) ++
  (if containsWord "education".data cl || containsWord "qualifications".data cl
   then [] else ["education".data]) ++
  (if containsWord "skills".data cl || containsWord "competencies".data cl ||
      containsWord "core skills".data cl then [] else ["skills".data])

/-- `len(self._word_re.findall(resume_text))`. -/
def word_count (resume_text : Str) : Nat := (findTokens resume_text).length

/-- The four structural checks, worth 10, 8, 6 and 6 points. -/
def structure_points (resume_text : Str) : ℤ :=
  (if sections_missing resume_text = [] then 10 else 0) +
  (if count_long_lines resume_text = 0 then 8 else 0) +
  (if symbol_density resume_text < 6 / 100 then 6 else 0) +
  (if 250 ≤ word_count resume_text ∧ word_count resume_text ≤ 950 then 6 else 0)

/-- The note returned when the job description yields no keywords. -/
def emptyJdNote : Str :=
  "Job description is empty or not readable; cannot compute ATS match.".data

/-- The missing-sections note. -/
def sectionsNote (ms : List Str) : Str :=
  "Missing common section headings: ".data ++ joinSep ", ".data ms ++ ".".data

/-- The long-lines note. -/
def longLinesNote (n : Nat) : Str :=
  "Found ".data ++ (Nat.repr n).data ++
    " very long lines (>120 chars). Consider wrapping text.".data

/-- The symbol-density note. -/
def symbolNote : Str :=
  "High symbol density detected. Avoid heavy tables/graphics for ATS-friendly resumes.".data

/-- The word-count note. -/
def wordCountNote (n : Nat) : Str :=
  "Resume word count is ".data ++ (Nat.repr n).data ++
    ". Typical ranges are ~250–950 depending on seniority.".data

/-- The default note used when no other note was generated. -/
def defaultNote : Str :=
  "Looks reasonably ATS-friendly. Improve by adding missing key terms naturally.".data

/-- The notes appended by the four structural checks, in source order. -/
def ats_notes (resume_text : Str) : List Str :=
  (if sections_missing resume_text = [] then []
   else [sectionsNote (sections_missing resume_text)]) ++
  (if count_long_lines resume_text = 0 then []
   else [longLinesNote (count_long_lines resume_text)]) ++
  (if symbol_density resume_text < 6 / 100 then [] else [symbolNote]) ++
  (if 250 ≤ word_count resume_text ∧ word_count resume_text ≤ 950 then []
   else [wordCountNote (word_count resume_text)])

/-- Result of `ats_optimization_score`. -/
structure ATSScoreResult where
  score : ℤ
  matched_keywords : List Str
  missing_keywords : List Str
  notes : List Str
deriving DecidableEq

/-- `ats_optimization_score(resume_text, job_description)`. -/
def ats_optimization_score (resume_text job_description : Str) : ATSScoreResult :=
  if extract_keywords (normalize_text job_description) = [] then
    { score := 0, matched_keywords := [], missing_keywords := [],
      notes := [emptyJdNote] }
  else
    { score := min 100 (base_score resume_text job_description +
        structure_points resume_text),
      matched_keywords := (matched_sorted resume_text job_description).take 30,
      missing_keywords := (missing_sorted resume_text job_description).take 20,
      notes := if ats_notes resume_text = [] then [defaultNote]
        else ats_notes resume_text }

/-- `CandidateProfile` (input of `generate_summary`). -/
structure CandidateProfile where
  full_name : Str
  title : Str
  years_experience : ℤ
  core_skills : List Str
  industries : List Str := []
  achievements : List Str := []
  tools : List Str := []
  location : Str := []
  email : Str := []
  phone : Str := []
  links : List Str := []
deriving DecidableEq

/-- `SummaryResult`: generated text plus provenance tag. -/
structure SummaryResult where
  summary : Str
  source : Str
deriving DecidableEq

/-- The fixed closing sentence of the template summary. -/
def summaryClosing : Str :=
  "Strong communicator with a focus on quality, timeliness, and stakeholder collaboration.".data

/-- The effective title: `target_title.strip() if target_title else
profile.title.strip()`. -/
def summary_title (profile : CandidateProfile) (target_title : Option Str) : Str :=
  match target_title with
  | some t => if t ≠ [] then pyStrip t else pyStrip profile.title
  | none => pyStrip profile.title

/-- The achievement clause (empty when there are no achievements). -/
def summary_achievement_line (profile : CandidateProfile) : Str :=
  match profile.achievements with
  | [] => []
  | a :: _ => " Proven track record including: ".data ++ dropTrailDots a ++ ".".data

/-- The job-description hint clause (empty when no job description is
supplied, when it is empty, or when no hint terms survive the core-skill
exclusion). -/
def summary_jd_hint (profile : CandidateProfile) (job_description : Option Str) : Str :=
  match job_description with
  | none => []
  | some jd =>
    if jd ≠ [] then
      let jd_keywords := extract_keywords (normalize_text jd)
      let jd_hint_terms := (jd_keywords.filter (fun k =>
        decide (k.map pyToLower ∉
          profile.core_skills.map (fun s => s.map pyToLower)))).take 4
      if jd_hint_terms ≠ [] then
        " Experienced in ".data ++ joinSep ", ".data jd_hint_terms ++ ".".data
      else []
    else []

/-- The `parts` list of `_generate_summary_template`, in source order. -/
def summary_parts (profile : CandidateProfile)
    (target_title job_description : Option Str) : List Str :=
  let core_skills := pyStrip (joinSep ", ".data (profile.core_skills.take 8))
  let tools := pyStrip (joinSep ", ".data (profile.tools.take 6))
  let industries := pyStrip (joinSep ", ".data (profile.industries.take 4))
  [summary_title profile target_title ++ " with ".data ++
     intRepr profile.years_experience ++
     "+ years of experience delivering measurable results.".data,
   if core_skills ≠ [] then "Skilled in ".data ++ core_skills ++ ".".data else [],
   if tools ≠ [] then "Tools: ".data ++ tools ++ ".".data else [],
   if industries ≠ [] then "Industry exposure: ".data ++ industries ++ ".".data else [],
   summary_achievement_line profile,
   summary_jd_hint profile job_description,
   summaryClosing]

/-- `_generate_summary_template(profile, target_title, job_description)`:
`" ".join([p for p in parts if p]).strip()` followed by `_cleanup_spaces`. -/
def generate_summary_template (profile : CandidateProfile)
    (target_title job_description : Option Str) : Str :=
  cleanup_spaces (pyStrip (joinSep " ".data
    ((summary_parts profile target_title job_description).filter
      (fun p => decide (p ≠ [])))))

/-- `generate_summary`.  The remote call `_generate_summary_hf_api` is an
external network collaborator; its outcome is a parameter:
`none` models a raised exception, `some t` models a returned string.
`requests_available` models the optional `requests` import. -/
def generate_summary (hf_token : Str) (requests_available : Bool)
    (profile : CandidateProfile) (job_description target_title : Option Str)
    (use_hf_api_if_available : Bool) (hf_api_outcome : Option Str) : SummaryResult :=
  let template_summary := generate_summary_template profile target_title job_description
  if !use_hf_api_if_available then ⟨template_summary, "template".data⟩
  else if hf_token = [] ∨ !requests_available then ⟨template_summary, "template".data⟩
  else
    match hf_api_outcome with
    | none => ⟨template_summary, "template".data⟩
    | some api_summary =>
      if api_summary ≠ [] ∧ 40 ≤ (pyStrip api_summary).length then
        ⟨pyStrip api_summary, "huggingface_api".data⟩
      else ⟨template_summary, "template".data⟩

/-- `CoverLetterInput`. -/
structure CoverLetterInput where
  full_name : Str
  target_role : Str
  company_name : Str
  years_experience : ℤ
  key_skills : List Str := []
  key_achievements : List Str := []
  tools : List Str := []
  motivation : Str := []
  location : Str := []
  email : Str := []
  phone : Str := []
  date_line : Str := []
  hiring_manager_name : Str := []
deriving DecidableEq

/-- `CoverLetterResult`: generated letter plus provenance tag. -/
structure CoverLetterResult where
  cover_letter : Str
  source : Str
deriving DecidableEq

/-- The tone-dependent closing sentence of the template cover letter. -/
def tone_line_of (tone : Str) : Str :=
  if tone.map pyToLower = "warm".data ∨ tone.map pyToLower = "friendly".data then
    "I’d welcome the chance to bring my energy and commitment to your team.".data
  else if tone.map pyToLower = "confident".data ∨ tone.map pyToLower = "assertive".data then
    "I am confident I can deliver immediate value and measurable outcomes in this position.".data
  else
    "I would welcome the opportunity to support your team and deliver measurable results.".data

/-- `_cleanup_spaces_preserve_paragraphs`: whitespace-normalize and strip each
line, rejoin with `'\n'`, collapse runs of three or more newlines to two,
strip the ends. -/
def cleanup_spaces_preserve_paragraphs (s : Str) : Str :=
  pyStrip (collapseNL (joinSep ['\n']
    ((splitlines s).map (fun line => pyStrip (collapseWS line)))))

/-- The part of the `body` f-string of `_generate_cover_letter_template`
that precedes the `"\n\n"` before the tone line: salutation, opening
paragraph, motivation paragraph and achievement/tools paragraph. -/
def cover_letter_pre (data : CoverLetterInput) (job_description : Option Str) : Str :=
  let salutation := if pyStrip data.hiring_manager_name ≠ [] then
      "Dear ".data ++ pyStrip data.hiring_manager_name ++ ",".data
    else "Dear Hiring Manager,".data
  let skills := pyStrip (joinSep ", ".data (data.key_skills.take 10))
  let tools := pyStrip (joinSep ", ".data (data.tools.take 8))
  let ach := match data.key_achievements with
    | [] => []
    | [a] => "One highlight includes ".data ++ dropTrailDots a ++ ".".data
    | a :: b :: _ => "Key highlights include ".data ++ dropTrailDots a ++
        " and ".data ++ dropTrailDots b ++ ".".data
  let motivation := if pyStrip data.motivation ≠ [] then pyStrip data.motivation
    else "I’m excited about the opportunity to contribute to ".data ++
      data.company_name ++ " in this role.".data
  let jd_hint := match job_description with
    | none => []
    | some jd =>
      if jd ≠ [] ∧ 40 < (pyStrip jd).length then
        " I have reviewed the role requirements and can align my experience to the key priorities outlined.".data
      else []
  salutation ++ "\n\nI am writing to apply for the ".data ++ data.target_role ++
    " position at ".data ++ data.company_name ++ ".".data ++ jd_hint ++
    " With ".data ++ intRepr data.years_experience ++
    "+ years of experience, I have developed strong capabilities in ".data ++
    (if skills ≠ [] then skills else "delivering high-quality results".data) ++
    ".".data ++
    "\n\n".data ++ motivation ++ "\n\n".data ++
    "In previous roles, I have consistently supported performance and outcomes through quality delivery, collaboration, and data-informed decision-making. ".data ++
    ach ++ (if ach ≠ [] then " ".data else []) ++
    (if tools ≠ [] then "I am proficient with tools such as ".data ++ tools ++ ".".data
     else [])

/-- The part of the `body` f-string that follows the tone line: the
thank-you sentence and the signature block. -/
def cover_letter_post (data : CoverLetterInput) : Str :=
  " Thank you for considering my application. I look forward to the possibility of discussing how my experience and skills can support ".data ++
    data.company_name ++ ".".data ++
    "\n\nSincerely,\n".data ++ data.full_name ++ "\n".data

/-- The `body` f-string of `_generate_cover_letter_template`.  (The source
also computes a `header` block from date/location/email/phone, but never
concatenates it into `body`, so it does not affect the returned string.) -/
def cover_letter_body (data : CoverLetterInput) (job_description : Option Str)
    (tone : Str) : Str :=
  cover_letter_pre data job_description ++ "\n\n".data ++ tone_line_of tone ++
    cover_letter_post data

/-- `_generate_cover_letter_template`. -/
def generate_cover_letter_template (data : CoverLetterInput)
    (job_description : Option Str) (tone : Str) : Str :=
  cleanup_spaces_preserve_paragraphs (cover_letter_body data job_description tone)

/-- `generate_cover_letter`, with the remote call modelled as in
`generate_summary` (acceptance threshold 200). -/
def generate_cover_letter (hf_token : Str) (requests_available : Bool)
    (data : CoverLetterInput) (job_description : Option Str) (tone : Str)
    (use_hf_api_if_available : Bool) (hf_api_outcome : Option Str) : CoverLetterResult :=
  let template_letter := generate_cover_letter_template data job_description tone
  if !use_hf_api_if_available then ⟨template_letter, "template".data⟩
  else if hf_token = [] ∨ !requests_available then ⟨template_letter, "template".data⟩
  else
    match hf_api_outcome with
    | none => ⟨template_letter, "template".data⟩
    | some api_letter =>
      if api_letter ≠ [] ∧ 200 ≤ (pyStrip api_letter).length then
        ⟨pyStrip api_letter, "huggingface_api".data⟩
      else ⟨template_letter, "template".data⟩

/-! ### Score bounds -/

theorem pyRound_nonneg {q : ℚ} (h : 0 ≤ q) : 0 ≤ pyRound q := by
  unfold pyRound
  have h0 : (0 : ℤ) ≤ ⌊q⌋ := Int.le_floor.mpr (by exact_mod_cast h)
  split_ifs <;> omega

theorem pyRound_le_seventy {q : ℚ} (h : q ≤ 70) : pyRound q ≤ 70 := by
  unfold pyRound
  have hf : ⌊q⌋ ≤ 70 := by
    have h1 : (⌊q⌋ : ℚ) ≤ q := Int.floor_le q
    exact_mod_cast le_trans h1 h
  split_ifs with h1 h2 h3
  · omega
  all_goals {
    have h4 : (1 : ℚ) / 2 ≤ q - ⌊q⌋ := le_of_not_lt h1
    have h5 : (⌊q⌋ : ℚ) < (70 : ℚ) := by linarith
    have h6 : ⌊q⌋ < 70 := by exact_mod_cast h5
    omega }

theorem pyRound_zero : pyRound 0 = 0 := by
  unfold pyRound
  norm_num

theorem matched_le_jdset (r j : Str) :
    (matched_sorted r j).length ≤ (jd_keyword_set j).length := by
  unfold matched_sorted sortLex
  rw [List.length_insertionSort]
  exact List.length_filter_le _ _

theorem base_score_nonneg (r j : Str) : 0 ≤ base_score r j := by
  apply pyRound_nonneg
  positivity

theorem base_score_le_seventy (r j : Str) : base_score r j ≤ 70 := by
  apply pyRound_le_seventy
  have h1 : (matched_sorted r j).length ≤ max 1 (jd_keyword_set j).length :=
    le_trans (matched_le_jdset r j) (Nat.le_max_right _ _)
  have h2 : (0 : ℚ) < (max 1 (jd_keyword_set j).length : ℚ) := by
    have : 1 ≤ max 1 (jd_keyword_set j).length := Nat.le_max_left _ _
    exact_mod_cast Nat.lt_of_lt_of_le Nat.zero_lt_one this
  have h3 : ((matched_sorted r j).length : ℚ) / (max 1 (jd_keyword_set j).length : ℚ) ≤ 1 :=
    (div_le_one h2).mpr (by exact_mod_cast h1)
  calc 70 * ((matched_sorted r j).length : ℚ) / (max 1 (jd_keyword_set j).length : ℚ)
      = 70 * (((matched_sorted r j).length : ℚ) / (max 1 (jd_keyword_set j).length : ℚ)) := by
        ring
    _ ≤ 70 * 1 := by nlinarith
    _ = 70 := by norm_num

theorem structure_points_nonneg (r : Str) : 0 ≤ structure_points r := by
  unfold structure_points
  split_ifs <;> norm_num

theorem structure_points_le_thirty (r : Str) : structure_points r ≤ 30 := by
  unfold structure_points
  split_ifs <;> norm_num

/-- C1: for every pair of inputs whose job description yields at least one
keyword, the score is `min(100, round(70·|matched|/|jd set|) + structural
bonus)` where the bonus is the sum of the four capped checks (10+8+6+6);
and for all inputs whatsoever the score lies in `[0, 100]`. -/
theorem C1_ats_score_formula_and_range (r j : Str) :
    (0 ≤ (ats_optimization_score r j).score ∧
      (ats_optimization_score r j).score ≤ 100) ∧
    (extract_keywords (normalize_text j) ≠ [] →
      (ats_optimization_score r j).score =
        min 100 (base_score r j +
          ((if sections_missing r = [] then 10 else 0) +
           (if count_long_lines r = 0 then 8 else 0) +
           (if symbol_density r < 6 / 100 then 6 else 0) +
           (if 250 ≤ word_count r ∧ word_count r ≤ 950 then 6 else 0)))) := by
  constructor
  · unfold ats_optimization_score
    by_cases h : extract_keywords (normalize_text j) = []
    · rw [if_pos h]
      exact ⟨le_refl 0, by norm_num⟩
    · rw [if_neg h]
      dsimp only
      constructor
      · refine le_min (by norm_num) ?_
        have := base_score_nonneg r j
        have := structure_points_nonneg r
        omega
      · exact min_le_left _ _
  · intro h
    unfold ats_optimization_score
    rw [if_neg h]
    rfl

/-- Witness for C1 at a concrete input with a non-empty keyword set. -/
theorem C1_witness :
    (ats_optimization_score [] "python".data).score =
      min 100 (base_score [] "python".data +
        ((if sections_missing [] = [] then 10 else 0) +
         (if count_long_lines [] = 0 then 8 else 0) +
         (if symbol_density [] < 6 / 100 then 6 else 0) +
         (if 250 ≤ word_count [] ∧ word_count [] ≤ 950 then 6 else 0))) :=
  (C1_ats_score_formula_and_range [] "python".data).2 (by decide)

/-- C2: when the job description yields zero keywords the scorer returns
score 0, empty matched/missing lists and exactly the one unreadable-job-
description note (and, being a total function, raises nothing). -/
theorem C2_empty_jd_degenerate (r j : Str)
    (h : extract_keywords (normalize_text j) = []) :
    ats_optimization_score r j =
      { score := 0, matched_keywords := [], missing_keywords := [],
        notes := [emptyJdNote] } := by
  unfold ats_optimization_score
  rw [if_pos h]

/-- Witness for C2 at the empty job description. -/
theorem C2_witness :
    ats_optimization_score "anything".data [] =
      { score := 0, matched_keywords := [], missing_keywords := [],
        notes := [emptyJdNote] } :=
  C2_empty_jd_degenerate "anything".data [] (by decide)

/-- C4: whenever the remote generation call fails (modelled by `none`) or
its stripped output is below the acceptance threshold (40 characters for the
summary, 200 for the cover letter), both generators return the deterministic
template text tagged `template`.  Both generators are total functions of
their inputs and the modelled remote outcome, so no error reaches the
caller. -/
theorem C4_remote_failure_falls_back_to_template
    (hf_token : Str) (requests_available : Bool)
    (profile : CandidateProfile) (jdS ttS : Option Str) (useS : Bool)
    (outS : Option Str)
    (data : CoverLetterInput) (jdC : Option Str) (tone : Str) (useC : Bool)
    (outC : Option Str)
    (hS : ∀ t, outS = some t → (pyStrip t).length < 40)
    (hC : ∀ t, outC = some t → (pyStrip t).length < 200) :
    generate_summary hf_token requests_available profile jdS ttS useS outS =
      ⟨generate_summary_template profile ttS jdS, "template".data⟩ ∧
    generate_cover_letter hf_token requests_available data jdC tone useC outC =
      ⟨generate_cover_letter_template data jdC tone, "template".data⟩ := by
  constructor
  · unfold generate_summary
    split_ifs
    · rfl
    · rfl
    · cases outS with
      | none => rfl
      | some t =>
        have ht := hS t rfl
        simp only []
        rw [if_neg (by intro hcon; omega)]
  · unfold generate_cover_letter
    split_ifs
    · rfl
    · rfl
    · cases outC with
      | none => rfl
      | some t =>
        have ht := hC t rfl
        simp only []
        rw [if_neg (by intro hcon; omega)]

/-- Witness for C4: a 5-character remote summary and an absent remote cover
letter both fall back to the template. -/
theorem C4_witness :
    generate_summary "tok".data true
        { full_name := [], title := "Dev".data, years_experience := 3,
          core_skills := [] }
        none none true (some "short".data) =
      ⟨generate_summary_template
        { full_name := [], title := "Dev".data, years_experience := 3,
          core_skills := [] } none none, "template".data⟩ ∧
    generate_cover_letter "tok".data true
        { full_name := [], target_role := "Dev".data,
          company_name := "Acme".data, years_experience := 3 }
        none "professional".data true none =
      ⟨generate_cover_letter_template
        { full_name := [], target_role := "Dev".data,
          company_name := "Acme".data, years_experience := 3 }
        none "professional".data, "template".data⟩ :=
  C4_remote_failure_falls_back_to_template "tok".data true _ none none true
    (some "short".data) _ none "professional".data true none
    (by intro t ht; injection ht with h; rw [← h]; decide)
    (by intro t ht; cases ht)

/-! ### The empty resume and the matched/missing structure -/

theorem resume_keywords_nil : resume_keywords [] = [] := rfl

theorem matched_sorted_nil (j : Str) : matched_sorted [] j = [] := by
  unfold matched_sorted
  rw [resume_keywords_nil]
  have hf : (jd_keyword_set j).filter (fun k => decide (k ∈ ([] : List Str))) = [] := by
    simp
  rw [hf]
  rfl

theorem missing_sorted_nil (j : Str) :
    missing_sorted [] j = sortLex (jd_keyword_set j) := by
  unfold missing_sorted
  rw [resume_keywords_nil]
  congr 1
  simp

theorem base_score_nil (j : Str) : base_score [] j = 0 := by
  unfold base_score
  rw [matched_sorted_nil]
  norm_num [pyRound_zero]

theorem structure_points_nil : structure_points ([] : Str) = 14 := by
  unfold structure_points
  rw [show sections_missing [] =
      ["experience".data, "education".data, "skills".data] from rfl]
  rw [show count_long_lines ([] : Str) = 0 from rfl]
  rw [show word_count ([] : Str) = 0 from rfl]
  rw [show symbol_density ([] : Str) = 0 from rfl]
  rw [if_neg (by decide)]
  norm_num

theorem ats_notes_nil :
    ats_notes ([] : Str) =
      ["Missing common section headings: experience, education, skills.".data,
       "Resume word count is 0. Typical ranges are ~250–950 depending on seniority.".data] := by
  unfold ats_notes
  rw [show sections_missing [] =
      ["experience".data, "education".data, "skills".data] from rfl]
  rw [show count_long_lines ([] : Str) = 0 from rfl]
  rw [show word_count ([] : Str) = 0 from rfl]
  rw [show symbol_density ([] : Str) = 0 from rfl]
  norm_num
  decide

/-- C10: scoring the empty resume against any job description with at least
one extracted keyword yields score 14 (base 0, +8 for zero long lines, +6
for zero symbol density), no matched keywords, the first 20 sorted job
keywords as missing, and exactly the missing-sections and word-count
notes. -/
theorem C10_empty_resume_score_fourteen (j : Str)
    (h : extract_keywords (normalize_text j) ≠ []) :
    ats_optimization_score [] j =
      { score := 14, matched_keywords := [],
        missing_keywords := (sortLex (jd_keyword_set j)).take 20,
        notes := ["Missing common section headings: experience, education, skills.".data,
                  "Resume word count is 0. Typical ranges are ~250–950 depending on seniority.".data] } := by
  unfold ats_optimization_score
  rw [if_neg h]
  have hsc : min 100 (base_score [] j + structure_points []) = 14 := by
    rw [base_score_nil, structure_points_nil]
    decide
  rw [hsc, matched_sorted_nil, missing_sorted_nil, ats_notes_nil]
  rw [if_neg (by decide)]
  rfl

/-- Witness for C10 at a concrete job description. -/
theorem C10_witness :
    ats_optimization_score [] "python".data =
      { score := 14, matched_keywords := [],
        missing_keywords := (sortLex (jd_keyword_set "python".data)).take 20,
        notes := ["Missing common section headings: experience, education, skills.".data,
                  "Resume word count is 0. Typical ranges are ~250–950 depending on seniority.".data] } :=
  C10_empty_resume_score_fourteen "python".data (by decide)

theorem mem_matched_sorted {r j : Str} {x : Str} :
    x ∈ matched_sorted r j ↔ x ∈ jd_keyword_set j ∧ x ∈ resume_keywords r := by
  unfold matched_sorted sortLex
  rw [List.mem_insertionSort, List.mem_filter]
  simp

theorem mem_missing_sorted {r j : Str} {x : Str} :
    x ∈ missing_sorted r j ↔ x ∈ jd_keyword_set j ∧ x ∉ resume_keywords r := by
  unfold missing_sorted sortLex
  rw [List.mem_insertionSort, List.mem_filter]
  simp

theorem pairwise_sortLex (l : List Str) : List.Pairwise (· ≤ ·) (sortLex l) := by
  have h := List.sorted_insertionSort (α := Str) (· ≤ ·) l
  unfold List.Sorted at h
  exact h

/-- C3: matched and missing keyword lists are disjoint, each sorted
lexicographically; matched is the first 30 of the sorted intersection,
missing the first 20 of the sorted difference; before capping their union
is exactly the job-description keyword set. -/
theorem C3_matched_missing_structure (r j : Str)
    (h : extract_keywords (normalize_text j) ≠ []) :
    (ats_optimization_score r j).matched_keywords = (matched_sorted r j).take 30 ∧
    (ats_optimization_score r j).missing_keywords = (missing_sorted r j).take 20 ∧
    (∀ x ∈ (ats_optimization_score r j).matched_keywords,
        x ∉ (ats_optimization_score r j).missing_keywords) ∧
    List.Pairwise (· ≤ ·) (ats_optimization_score r j).matched_keywords ∧
    List.Pairwise (· ≤ ·) (ats_optimization_score r j).missing_keywords ∧
    (∀ x, (x ∈ matched_sorted r j ∨ x ∈ missing_sorted r j) ↔
        x ∈ jd_keyword_set j) := by
  have hm : (ats_optimization_score r j).matched_keywords =
      (matched_sorted r j).take 30 := by
    unfold ats_optimization_score
    rw [if_neg h]
  have hmiss : (ats_optimization_score r j).missing_keywords =
      (missing_sorted r j).take 20 := by
    unfold ats_optimization_score
    rw [if_neg h]
  refine ⟨hm, hmiss, ?_, ?_, ?_, ?_⟩
  · intro x hx hx'
    rw [hm] at hx
    rw [hmiss] at hx'
    have h1 := mem_matched_sorted.mp (List.mem_of_mem_take hx)
    have h2 := mem_missing_sorted.mp (List.mem_of_mem_take hx')
    exact h2.2 h1.2
  · rw [hm]
    exact (pairwise_sortLex _).sublist (List.take_sublist _ _)
  · rw [hmiss]
    exact (pairwise_sortLex _).sublist (List.take_sublist _ _)
  · intro x
    constructor
    · rintro (hx | hx)
      · exact (mem_matched_sorted.mp hx).1
      · exact (mem_missing_sorted.mp hx).1
    · intro hx
      by_cases hr : x ∈ resume_keywords r
      · exact Or.inl (mem_matched_sorted.mpr ⟨hx, hr⟩)
      · exact Or.inr (mem_missing_sorted.mpr ⟨hx, hr⟩)

/-- Witness for C3 at a concrete input. -/
theorem C3_witness :
    (ats_optimization_score "sql and python".data "python or java".data).matched_keywords =
      (matched_sorted "sql and python".data "python or java".data).take 30 :=
  (C3_matched_missing_structure "sql and python".data "python or java".data
    (by decide)).1

/-! ### The keyword extractor contract -/

theorem firstDedupAux_subset :
    ∀ (l seen : List Str) (x : Str), x ∈ firstDedupAux seen l → x ∈ l := by
  intro l
  induction l with
  | nil => intro seen x hx; exact absurd hx (List.not_mem_nil x)
  | cons t ts ih =>
    intro seen x hx
    unfold firstDedupAux at hx
    split_ifs at hx with h
    · exact List.mem_cons_of_mem t (ih seen x hx)
    · rcases List.mem_cons.mp hx with rfl | hx'
      · exact List.mem_cons_self _ _
      · exact List.mem_cons_of_mem t (ih (t :: seen) x hx')

theorem firstDedupAux_nodup :
    ∀ (l seen : List Str),
      (firstDedupAux seen l).Nodup ∧ ∀ x ∈ firstDedupAux seen l, x ∉ seen := by
  intro l
  induction l with
  | nil =>
    intro seen
    exact ⟨List.nodup_nil, fun x hx => absurd hx (List.not_mem_nil x)⟩
  | cons t ts ih =>
    intro seen
    unfold firstDedupAux
    split_ifs with h
    · exact ih seen
    · obtain ⟨ih1, ih2⟩ := ih (t :: seen)
      constructor
      · refine List.nodup_cons.mpr ⟨?_, ih1⟩
        intro hmem
        exact ih2 t hmem (List.mem_cons_self _ _)
      · intro x hx
        rcases List.mem_cons.mp hx with rfl | hx'
        · exact h
        · intro hseen
          exact ih2 x hx' (List.mem_cons_of_mem t hseen)

theorem firstDedup_subset {l : List Str} {x : Str} (h : x ∈ firstDedup l) : x ∈ l :=
  firstDedupAux_subset l [] x h

theorem firstDedup_nodup (l : List Str) : (firstDedup l).Nodup :=
  (firstDedupAux_nodup l []).1

theorem firstIdx_inj :
    ∀ (l : List Str) (u v : Str), u ∈ l → v ∈ l →
      firstIdx u l = firstIdx v l → u = v := by
  intro l
  induction l with
  | nil => intro u v hu; exact absurd hu (List.not_mem_nil u)
  | cons t ts ih =>
    intro u v hu hv heq
    unfold firstIdx at heq
    by_cases h1 : t = u
    · by_cases h2 : t = v
      · rw [← h1, ← h2]
      · rw [if_pos h1, if_neg h2] at heq
        omega
    · by_cases h2 : t = v
      · rw [if_neg h1, if_pos h2] at heq
        omega
      · rw [if_neg h1, if_neg h2] at heq
        have hu' : u ∈ ts := by
          rcases List.mem_cons.mp hu with rfl | h
          · exact absurd rfl h1
          · exact h
        have hv' : v ∈ ts := by
          rcases List.mem_cons.mp hv with rfl | h
          · exact absurd rfl h2
          · exact h
        exact ih u v hu' hv' (by omega)

/-- The shape of a raw `_word_re` match. -/
def tokenShape (t : Str) : Prop :=
  ∃ c cs, t = c :: cs ∧ asciiAlpha c = true ∧
    (∀ d ∈ cs, contChar d = true) ∧ 2 ≤ t.length

theorem findTokensAux_shape :
    ∀ (s : Str) (st : Option Str),
      (∀ acc, st = some acc →
        ∃ rest c0, acc = rest ++ [c0] ∧ asciiAlpha c0 = true ∧
          ∀ d ∈ rest, contChar d = true) →
      ∀ t ∈ findTokensAux st s, tokenShape t := by
  intro s
  induction s with
  | nil =>
    intro st hst t ht
    cases st with
    | none => exact absurd ht (List.not_mem_nil t)
    | some acc =>
      unfold findTokensAux at ht
      split_ifs at ht with hlen
      · obtain ⟨rest, c0, rfl, hc0, hrest⟩ := hst acc rfl
        rcases List.mem_singleton.mp ht with rfl
        refine ⟨c0, rest.reverse, by simp, hc0, ?_, ?_⟩
        · intro d hd
          exact hrest d (List.mem_reverse.mp hd)
        · simpa using hlen
      · exact absurd ht (List.not_mem_nil t)
  | cons c cs ih =>
    intro st hst t ht
    cases st with
    | none =>
      unfold findTokensAux at ht
      split_ifs at ht with hc
      · refine ih (some [c]) ?_ t ht
        intro acc hacc
        injection hacc with hacc
        exact ⟨[], c, by rw [← hacc]; rfl, hc, by intro d hd; cases hd⟩
      · exact ih none (by intro acc h; cases h) t ht
    | some acc =>
      obtain ⟨rest, c0, rfl, hc0, hrest⟩ := hst acc rfl
      unfold findTokensAux at ht
      split_ifs at ht with hc hlen
      · refine ih (some (c :: (rest ++ [c0]))) ?_ t ht
        intro acc' hacc'
        injection hacc' with hacc'
        refine ⟨c :: rest, c0, by rw [← hacc']; rfl, hc0, ?_⟩
        intro d hd
        rcases List.mem_cons.mp hd with rfl | hd'
        · exact hc
        · exact hrest d hd'
      · rcases List.mem_append.mp ht with hemit | hrec
        · rcases List.mem_singleton.mp hemit with rfl
          refine ⟨c0, rest.reverse, by simp, hc0, ?_, ?_⟩
          · intro d hd
            exact hrest d (List.mem_reverse.mp hd)
          · simpa using hlen
        · exact ih none (by intro acc' h; cases h) t hrec
      · rw [List.nil_append] at ht
        exact ih none (by intro acc' h; cases h) t ht

theorem findTokens_shape {text t : Str} (h : t ∈ findTokens text) : tokenShape t :=
  findTokensAux_shape text none (by intro acc h'; cases h') t h

theorem pyToLower_alpha {c : Char} (h : asciiAlpha c = true) :
    97 ≤ (pyToLower c).toNat ∧ (pyToLower c).toNat ≤ 122 := by
  unfold asciiAlpha at h
  simp only [Bool.or_eq_true, Bool.and_eq_true, decide_eq_true_eq] at h
  rcases h with ⟨h1, h2⟩ | ⟨h1, h2⟩
  · unfold pyToLower
    rw [if_pos ⟨h1, h2⟩]
    interval_cases hn : c.toNat <;> simp [hn]
  · unfold pyToLower
    rw [if_neg (by omega)]
    exact ⟨h1, h2⟩

theorem pyToLower_cont {c : Char} (h : contChar c = true) :
    (97 ≤ (pyToLower c).toNat ∧ (pyToLower c).toNat ≤ 122) ∨
    pyToLower c = '-' ∨ pyToLower c = '+' ∨ pyToLower c = '.' := by
  unfold contChar at h
  simp only [Bool.or_eq_true, decide_eq_true_eq] at h
  rcases h with ((ha | hd) | hp) | hdot
  · exact Or.inl (pyToLower_alpha ha)
  · right; left; rw [hd]; rfl
  · right; right; left; rw [hp]; rfl
  · right; right; right; rw [hdot]; rfl

theorem keyword_items_fact {toks : List Str} {a : Nat × Str × Nat}
    (h : a ∈ keyword_items toks) :
    a.2.1 ∈ firstDedup toks ∧ a.1 = firstIdx a.2.1 toks ∧
      a.2.2 = toks.count a.2.1 := by
  unfold keyword_items at h
  obtain ⟨w, hw, rfl⟩ := List.mem_map.mp h
  exact ⟨hw, rfl, rfl⟩

theorem keyword_items_nodup (toks : List Str) : (keyword_items toks).Nodup := by
  unfold keyword_items
  refine List.Nodup.map_on ?_ (firstDedup_nodup toks)
  intro x _ y _ hxy
  have := congrArg (fun p => p.2.1) hxy
  simpa using this

/-- C5: every extracted keyword is a lowercase alphabetic-led token with
continuation characters in letters, `'-'`, `'+'`, `'.'`, of length at least
3 and outside the stopword set; the list has at most 80 entries and is
ordered by strictly descending frequency with first-occurrence position as
the tie-break. -/
theorem C5_keyword_extractor_contract (text : Str) :
    (∀ k ∈ extract_keywords text,
        3 ≤ k.length ∧ k ∉ stopwords ∧
        ∃ c cs, k = c :: cs ∧ (97 ≤ c.toNat ∧ c.toNat ≤ 122) ∧
          ∀ d ∈ cs, (97 ≤ d.toNat ∧ d.toNat ≤ 122) ∨ d = '-' ∨ d = '+' ∨ d = '.') ∧
    (extract_keywords text).length ≤ 80 ∧
    List.Pairwise (fun u v =>
      (filtered_tokens text).count v < (filtered_tokens text).count u ∨
      ((filtered_tokens text).count u = (filtered_tokens text).count v ∧
        firstIdx u (filtered_tokens text) < firstIdx v (filtered_tokens text)))
      (extract_keywords text) := by
  refine ⟨?_, ?_, ?_⟩
  · intro k hk
    have hk1 : k ∈ (List.insertionSort rankRel
        (keyword_items (filtered_tokens text))).map (fun x => x.2.1) :=
      List.mem_of_mem_take hk
    obtain ⟨a, ha, rfl⟩ := List.mem_map.mp hk1
    have ha' : a ∈ keyword_items (filtered_tokens text) :=
      (List.mem_insertionSort rankRel).mp ha
    have hmem : a.2.1 ∈ filtered_tokens text :=
      firstDedup_subset (keyword_items_fact ha').1
    unfold filtered_tokens at hmem
    obtain ⟨hmem', hp⟩ := List.mem_filter.mp hmem
    simp only [Bool.and_eq_true, decide_eq_true_eq] at hp
    refine ⟨hp.1, hp.2, ?_⟩
    unfold tokenize at hmem'
    obtain ⟨t, ht, heq⟩ := List.mem_map.mp hmem'
    rw [← heq]
    obtain ⟨c, cs, rfl, hc, hcs, _⟩ := findTokens_shape ht
    refine ⟨pyToLower c, cs.map pyToLower, by simp, pyToLower_alpha hc, ?_⟩
    intro d hd
    obtain ⟨d0, hd0, rfl⟩ := List.mem_map.mp hd
    exact pyToLower_cont (hcs d0 hd0)
  · unfold extract_keywords mostCommon
    rw [List.length_take]
    exact min_le_left _ _
  · unfold extract_keywords mostCommon
    apply List.Pairwise.sublist (List.take_sublist _ _)
    rw [List.pairwise_map]
    have hs : List.Pairwise rankRel
        (List.insertionSort rankRel (keyword_items (filtered_tokens text))) := by
      have h := List.sorted_insertionSort rankRel (keyword_items (filtered_tokens text))
      unfold List.Sorted at h
      exact h
    have hn : (List.insertionSort rankRel
        (keyword_items (filtered_tokens text))).Nodup :=
      ((List.perm_insertionSort rankRel _).nodup_iff).mpr
        (keyword_items_nodup _)
    unfold List.Nodup at hn
    refine List.Pairwise.imp_of_mem ?_ (hs.and hn)
    intro a b ha hb hab
    obtain ⟨hrank, hne⟩ := hab
    obtain ⟨haw, hai, hac⟩ :=
      keyword_items_fact ((List.mem_insertionSort rankRel).mp ha)
    obtain ⟨hbw, hbi, hbc⟩ :=
      keyword_items_fact ((List.mem_insertionSort rankRel).mp hb)
    unfold rankRel at hrank
    rcases hrank with hlt | ⟨heq, hle⟩
    · left
      rw [← hac, ← hbc]
      exact hlt
    · right
      constructor
      · rw [← hac, ← hbc]
        exact heq
      · rw [hai, hbi] at hle
        rcases lt_or_eq_of_le hle with hlt | heqi
        · exact hlt
        · exfalso
          have haw' : a.2.1 ∈ filtered_tokens text := firstDedup_subset haw
          have hbw' : b.2.1 ∈ filtered_tokens text := firstDedup_subset hbw
          have hwe : a.2.1 = b.2.1 := firstIdx_inj _ _ _ haw' hbw' heqi
          apply hne
          have h1 : a.1 = b.1 := by rw [hai, hbi, hwe]
          have h2 : a.2.2 = b.2.2 := by rw [hac, hbc, hwe]
          obtain ⟨a1, a2, a3⟩ := a
          obtain ⟨b1, b2, b3⟩ := b
          simp only at hwe h1 h2
          rw [hwe, h1, h2]

/-! ### Symbol density: raw versus normalized text -/

@[simp] theorem symbolNote_eq_sectionsNote_iff (ms : List Str) :
    symbolNote = sectionsNote ms ↔ False := by
  simp only [iff_false]
  intro h
  have h' := congrArg List.head? h
  rw [show (sectionsNote ms).head? = some 'M' from rfl] at h'
  exact absurd h' (by decide)

@[simp] theorem symbolNote_eq_longLinesNote_iff (n : Nat) :
    symbolNote = longLinesNote n ↔ False := by
  simp only [iff_false]
  intro h
  have h' := congrArg List.head? h
  rw [show (longLinesNote n).head? = some 'F' from rfl] at h'
  exact absurd h' (by decide)

@[simp] theorem symbolNote_eq_wordCountNote_iff (n : Nat) :
    symbolNote = wordCountNote n ↔ False := by
  simp only [iff_false]
  intro h
  have h' := congrArg List.head? h
  rw [show (wordCountNote n).head? = some 'R' from rfl] at h'
  exact absurd h' (by decide)

@[simp] theorem symbolNote_eq_defaultNote_iff :
    symbolNote = defaultNote ↔ False := by
  simp only [iff_false]
  decide

theorem symbolNote_mem_ats_notes (r : Str) :
    symbolNote ∈ ats_notes r ↔ ¬ symbol_density r < 6 / 100 := by
  unfold ats_notes
  constructor
  · intro hmem hd
    rw [if_pos hd] at hmem
    split_ifs at hmem <;> simp at hmem
  · intro hd
    rw [if_neg hd]
    simp [List.mem_append]

/-- C6 counterexample: on a resume whose raw text is `"ab!"` followed by 40
spaces (raw symbol density `1/43 < 0.06`, normalized text `"ab!"` with
density `1/3 ≥ 0.06`), the scorer awards the +6 bonus and appends no
symbol-density note, although the normalized density is not below `0.06` —
so the bonus is not governed by the normalized text. -/
theorem C6_counterexample_density_uses_raw_text :
    ¬ (symbolNote ∉ (ats_optimization_score
          "ab!                                        ".data "python".data).notes ↔
        symbol_density (normalize_text
          "ab!                                        ".data) < 6 / 100) := by
  intro hiff
  have hd : symbol_density "ab!                                        ".data < 6 / 100 := by
    unfold symbol_density
    rw [if_neg (by decide)]
    rw [show ("ab!                                        ".data.filter
        (fun ch => !ch.isAlphanum && !pyIsSpace ch)).length = 1 from rfl]
    rw [show "ab!                                        ".data.length = 43 from rfl]
    rw [max_eq_right (by norm_num)]
    norm_num
  have hnotin : symbolNote ∉ (ats_optimization_score
      "ab!                                        ".data "python".data).notes := by
    unfold ats_optimization_score
    rw [if_neg (by decide)]
    dsimp only
    split_ifs with h0
    · simp
    · intro hmem
      exact (symbolNote_mem_ats_notes _).mp hmem hd
  have hdense : ¬ symbol_density (normalize_text
      "ab!                                        ".data) < 6 / 100 := by
    rw [show normalize_text "ab!                                        ".data =
        "ab!".data from rfl]
    unfold symbol_density
    rw [if_neg (by decide)]
    rw [show ("ab!".data.filter (fun ch => !ch.isAlphanum && !pyIsSpace ch)).length = 1
        from rfl]
    rw [show "ab!".data.length = 3 from rfl]
    rw [max_eq_right (by norm_num)]
    norm_num
  exact hdense (hiff.mp hnotin)

/-- C6 amended: for inputs whose job description yields at least one
keyword, the +6 structural bonus enters the score through the check
`symbol_density(raw resume text) < 0.06` — the RAW text, not the normalized
text — and the symbol-density note is appended exactly when that raw density
is not below `0.06`. -/
theorem C6_amended_symbol_density_on_raw_text (r j : Str)
    (h : extract_keywords (normalize_text j) ≠ []) :
    (ats_optimization_score r j).score =
      min 100 (base_score r j +
        ((if sections_missing r = [] then 10 else 0) +
         (if count_long_lines r = 0 then 8 else 0) +
         (if symbol_density r < 6 / 100 then 6 else 0) +
         (if 250 ≤ word_count r ∧ word_count r ≤ 950 then 6 else 0))) ∧
    (symbol_density r < 6 / 100 ↔
      symbolNote ∉ (ats_optimization_score r j).notes) := by
  have hnotes : (ats_optimization_score r j).notes =
      if ats_notes r = [] then [defaultNote] else ats_notes r := by
    unfold ats_optimization_score
    rw [if_neg h]
  constructor
  · unfold ats_optimization_score
    rw [if_neg h]
    rfl
  · rw [hnotes]
    by_cases hd : symbol_density r < 6 / 100
    · refine iff_of_true hd ?_
      split_ifs with h0
      · simp
      · intro hmem
        exact (symbolNote_mem_ats_notes r).mp hmem hd
    · have hin : symbolNote ∈ ats_notes r := (symbolNote_mem_ats_notes r).mpr hd
      have hne : ats_notes r ≠ [] := by
        intro h0
        rw [h0] at hin
        exact absurd hin (List.not_mem_nil _)
      rw [if_neg hne]
      exact iff_of_false hd (not_not_intro hin)

/-- Witness for the amended C6 at a concrete input. -/
theorem C6_amended_witness :
    symbol_density "hello".data < 6 / 100 ↔
      symbolNote ∉ (ats_optimization_score "hello".data "python".data).notes :=
  (C6_amended_symbol_density_on_raw_text "hello".data "python".data (by decide)).2

/-! ### Whitespace, stripping and newline-collapsing machinery -/

theorem sub_trans {a b c : Str} (h1 : a <:+: b) (h2 : b <:+: c) : a <:+: c := by
  obtain ⟨s1, t1, rfl⟩ := h1
  obtain ⟨s2, t2, rfl⟩ := h2
  exact ⟨s2 ++ s1, t1 ++ t2, by simp [List.append_assoc]⟩

theorem sub_of_cons {l : Str} {c : Char} {s : Str} (h : l <:+: c :: s) :
    l <+: c :: s ∨ l <:+: s := by
  obtain ⟨u, t, hut⟩ := h
  cases u with
  | nil => exact Or.inl ⟨t, by simpa using hut⟩
  | cons x u' =>
    injection hut with h1 h2
    exact Or.inr ⟨u', t, h2⟩

theorem dropTrailWS_pre : ∀ s : Str, dropTrailWS s <+: s := by
  intro s
  induction s with
  | nil => exact ⟨[], rfl⟩
  | cons c cs ih =>
    unfold dropTrailWS
    dsimp only
    split_ifs with h
    · exact ⟨c :: cs, rfl⟩
    · obtain ⟨t, ht⟩ := ih
      exact ⟨t, by rw [List.cons_append, ht]⟩

theorem pyStrip_sub (s : Str) : pyStrip s <:+: s := by
  unfold pyStrip
  obtain ⟨t, ht⟩ := dropTrailWS_pre (s.dropWhile pyIsSpace)
  obtain ⟨u, hu⟩ := List.dropWhile_suffix (l := s) pyIsSpace
  exact ⟨u, t, by rw [List.append_assoc, ht, hu]⟩

theorem mem_dropTrailWS {c : Char} {s : Str} (h : c ∈ dropTrailWS s) : c ∈ s := by
  obtain ⟨t, ht⟩ := dropTrailWS_pre s
  rw [← ht]
  exact List.mem_append_left _ h

theorem mem_collapseWSAux {c : Char} :
    ∀ (s : Str) (b : Bool), c ∈ collapseWSAux b s →
      c = ' ' ∨ (c ∈ s ∧ pyIsSpace c = false) := by
  intro s
  induction s with
  | nil => intro b h; simp [collapseWSAux] at h
  | cons x cs ih =>
    intro b h
    unfold collapseWSAux at h
    split_ifs at h with h1 h2
    · rcases ih true h with h' | ⟨hm, hs⟩
      · exact Or.inl h'
      · exact Or.inr ⟨List.mem_cons_of_mem x hm, hs⟩
    · rcases List.mem_cons.mp h with rfl | h'
      · exact Or.inl rfl
      · rcases ih true h' with h'' | ⟨hm, hs⟩
        · exact Or.inl h''
        · exact Or.inr ⟨List.mem_cons_of_mem x hm, hs⟩
    · rcases List.mem_cons.mp h with rfl | h'
      · exact Or.inr ⟨List.mem_cons_self _ _, by simpa using h1⟩
      · rcases ih false h' with h'' | ⟨hm, hs⟩
        · exact Or.inl h''
        · exact Or.inr ⟨List.mem_cons_of_mem x hm, hs⟩

theorem newline_not_mem_cleanup_spaces (s : Str) : '\n' ∉ cleanup_spaces s := by
  intro h
  unfold cleanup_spaces pyStrip at h
  have h2 := mem_dropTrailWS h
  have h1 : '\n' ∈ collapseWS s := by
    obtain ⟨u, hu⟩ := List.dropWhile_suffix (l := collapseWS s) pyIsSpace
    rw [← hu]
    exact List.mem_append_right _ h2
  rcases mem_collapseWSAux s false h1 with h' | ⟨_, hs⟩
  · exact absurd h' (by decide)
  · exact absurd hs (by decide)

/-- Leading-newline count. -/
def leadNL (s : Str) : Nat := (s.takeWhile (fun c => decide (c = '\n'))).length

theorem leadNL_collapseNLAux : ∀ (s : Str) (k : Nat),
    leadNL (collapseNLAux k s) ≤ 2 - k := by
  intro s
  induction s with
  | nil => intro k; simp [collapseNLAux, leadNL]
  | cons c cs ih =>
    intro k
    unfold collapseNLAux
    split_ifs with h1 h2
    · subst h1
      have := ih (k + 1)
      unfold leadNL at *
      rw [List.takeWhile_cons]
      simp only [decide_eq_true_eq, if_true, List.length_cons]
      omega
    · exact le_trans (ih k) (by omega)
    · unfold leadNL
      rw [List.takeWhile_cons]
      simp [h1]

theorem collapseNLAux_triple_free : ∀ (s : Str) (k : Nat),
    ¬ (['\n', '\n', '\n'] <:+: collapseNLAux k s) := by
  intro s
  induction s with
  | nil =>
    intro k h
    obtain ⟨u, t, hut⟩ := h
    simp [collapseNLAux] at hut
  | cons c cs ih =>
    intro k h
    unfold collapseNLAux at h
    split_ifs at h with h1 h2
    · rcases sub_of_cons h with hpre | hsub
      · obtain ⟨t, ht⟩ := hpre
        injection ht with _ ht2
        have h2le : 2 ≤ leadNL (collapseNLAux (k + 1) cs) := by
          rw [← ht2]
          unfold leadNL
          simp [List.takeWhile_cons]
        have := leadNL_collapseNLAux cs (k + 1)
        omega
      · exact ih (k + 1) hsub
    · exact ih k h
    · rcases sub_of_cons h with hpre | hsub
      · obtain ⟨t, ht⟩ := hpre
        injection ht with hx _
        exact h1 hx.symm
      · exact ih 0 hsub

theorem collapseNL_triple_free (s : Str) :
    ¬ (['\n', '\n', '\n'] <:+: collapseNL s) :=
  collapseNLAux_triple_free s 0

/-- C7: neither composer's template output contains more than one
consecutive blank line.  The cover-letter composer normalizes each line and
collapses every run of three or more newlines to exactly two, so its output
never contains three consecutive newlines; the summary composer collapses
all whitespace to single spaces, so its output contains no newline at
all. -/
theorem C7_composer_blank_line_invariant :
    (∀ (data : CoverLetterInput) (jd : Option Str) (tone : Str),
        ¬ (['\n', '\n', '\n'] <:+:
          generate_cover_letter_template data jd tone)) ∧
    (∀ (profile : CandidateProfile) (tt jd : Option Str),
        '\n' ∉ generate_summary_template profile tt jd) := by
  constructor
  · intro data jd tone
    intro h
    exact collapseNL_triple_free _ (sub_trans h (pyStrip_sub _))
  · intro profile tt jd
    exact newline_not_mem_cleanup_spaces _

/-! ### Clean chunks survive whitespace cleanup -/

/-- `t` starts with a non-whitespace character. -/
def headNonWS : Str → Bool
  | [] => false
  | c :: _ => !pyIsSpace c

/-- `t` ends with a non-whitespace character. -/
def lastNonWS : Str → Bool
  | [] => false
  | [d] => !pyIsSpace d
  | _ :: c :: cs => lastNonWS (c :: cs)

/-- `t` passes through the whitespace collapser unchanged when the
previous-character-was-whitespace flag starts at `prev`: all of its
whitespace is the single character `' '` and never follows whitespace. -/
def cleanFrom : Bool → Str → Bool
  | _, [] => true
  | prev, c :: cs =>
    if pyIsSpace c then (!prev && decide (c = ' ')) && cleanFrom true cs
    else cleanFrom false cs

/-- The collapse flag after scanning `t` starting from `b`. -/
def endSt (b : Bool) (t : Str) : Bool := t.foldl (fun _ c => pyIsSpace c) b

theorem headNonWS_split {t : Str} (h : headNonWS t = true) :
    ∃ c cs, t = c :: cs ∧ pyIsSpace c = false := by
  cases t with
  | nil => exact absurd h (by decide)
  | cons c cs => exact ⟨c, cs, rfl, by simpa [headNonWS] using h⟩

theorem lastNonWS_split : ∀ {t : Str}, lastNonWS t = true →
    ∃ x d, t = x ++ [d] ∧ pyIsSpace d = false := by
  intro t
  induction t with
  | nil => intro h; exact absurd h (by decide)
  | cons c cs ih =>
    intro h
    cases cs with
    | nil => exact ⟨[], c, rfl, by simpa [lastNonWS] using h⟩
    | cons c2 cs2 =>
      obtain ⟨x, d, hx, hd⟩ := ih (by simpa [lastNonWS] using h)
      exact ⟨c :: x, d, by rw [hx]; rfl, hd⟩

theorem cleanFrom_head {t : Str} (h : headNonWS t = true) (b b' : Bool) :
    cleanFrom b t = cleanFrom b' t := by
  obtain ⟨c, cs, rfl, hc⟩ := headNonWS_split h
  unfold cleanFrom
  rw [if_neg (by simp [hc]), if_neg (by simp [hc])]

theorem collapseWSAux_cons (b : Bool) (c : Char) (cs : Str) :
    collapseWSAux b (c :: cs) =
      if pyIsSpace c then
        (if b then collapseWSAux true cs else ' ' :: collapseWSAux true cs)
      else c :: collapseWSAux false cs := rfl

theorem cleanFrom_cons (prev : Bool) (c : Char) (cs : Str) :
    cleanFrom prev (c :: cs) =
      if pyIsSpace c then (!prev && decide (c = ' ')) && cleanFrom true cs
      else cleanFrom false cs := rfl

theorem endSt_cons (b : Bool) (c : Char) (cs : Str) :
    endSt b (c :: cs) = endSt (pyIsSpace c) cs := rfl

theorem dropTrailWS_cons (c : Char) (cs : Str) :
    dropTrailWS (c :: cs) =
      if dropTrailWS cs = [] ∧ pyIsSpace c then [] else c :: dropTrailWS cs := rfl

theorem collapseWSAux_clean_append :
    ∀ (t : Str) (b : Bool) (r : Str), cleanFrom b t = true →
      collapseWSAux b (t ++ r) = t ++ collapseWSAux (endSt b t) r := by
  intro t
  induction t with
  | nil => intro b r _; rfl
  | cons c cs ih =>
    intro b r hc
    rw [cleanFrom_cons] at hc
    rw [List.cons_append, collapseWSAux_cons]
    by_cases h1 : pyIsSpace c = true
    · rw [if_pos h1] at hc ⊢
      simp only [Bool.and_eq_true, Bool.not_eq_true', decide_eq_true_eq] at hc
      obtain ⟨⟨hb, hsp⟩, hcs⟩ := hc
      subst hb
      subst hsp
      rw [if_neg (by simp)]
      rw [ih true r hcs, endSt_cons]
      rw [show pyIsSpace ' ' = true from rfl]
      rfl
    · rw [if_neg h1] at hc ⊢
      rw [ih false r hc, endSt_cons]
      rw [show pyIsSpace c = false from by simpa using h1]
      rfl

theorem dropTrailWS_append_nonWS :
    ∀ (x : Str) (d : Char) (r : Str), pyIsSpace d = false →
      dropTrailWS (x ++ d :: r) = x ++ d :: dropTrailWS r := by
  intro x
  induction x with
  | nil =>
    intro d r hd
    simp only [List.nil_append]
    rw [dropTrailWS_cons]
    rw [if_neg (by simp [hd])]
  | cons c x' ih =>
    intro d r hd
    rw [List.cons_append, dropTrailWS_cons, ih d r hd]
    rw [if_neg (by simp)]
    rfl

theorem dropWhile_append_nonWS :
    ∀ (a : Str) (c0 : Char) (r : Str), pyIsSpace c0 = false →
      ∃ a', List.dropWhile pyIsSpace (a ++ c0 :: r) = a' ++ c0 :: r := by
  intro a
  induction a with
  | nil =>
    intro c0 r h
    exact ⟨[], by simp [List.dropWhile_cons, h]⟩
  | cons c a' ih =>
    intro c0 r h
    rw [List.cons_append, List.dropWhile_cons]
    split_ifs with hc
    · exact ih c0 r h
    · exact ⟨c :: a', rfl⟩

theorem collapseWSAux_append_suffix :
    ∀ (a : Str) (b : Bool) (t : Str), cleanFrom false t = true →
      headNonWS t = true →
      ∃ out, collapseWSAux b (a ++ t) = out ++ t := by
  intro a
  induction a with
  | nil =>
    intro b t hc hh
    refine ⟨[], ?_⟩
    have h1 : cleanFrom b t = true := by rw [cleanFrom_head hh b false]; exact hc
    have h2 := collapseWSAux_clean_append t b [] h1
    rw [List.append_nil] at h2
    rw [show collapseWSAux (endSt b t) [] = [] from rfl, List.append_nil] at h2
    simpa using h2
  | cons c a' ih =>
    intro b t hc hh
    rw [List.cons_append, collapseWSAux_cons]
    by_cases h1 : pyIsSpace c = true
    · rw [if_pos h1]
      by_cases hb : b = true
      · rw [if_pos hb]
        exact ih true t hc hh
      · rw [if_neg hb]
        obtain ⟨out, hout⟩ := ih true t hc hh
        exact ⟨' ' :: out, by rw [hout]; rfl⟩
    · rw [if_neg h1]
      obtain ⟨out, hout⟩ := ih false t hc hh
      exact ⟨c :: out, by rw [hout]; rfl⟩

theorem pyStrip_suffix_keep {t s : Str} (h : t <:+ s)
    (hh : headNonWS t = true) (hl : lastNonWS t = true) : t <:+ pyStrip s := by
  obtain ⟨g, rfl⟩ := h
  obtain ⟨c0, cr, hct, hc0⟩ := headNonWS_split hh
  obtain ⟨x, d, hxt, hd⟩ := lastNonWS_split hl
  unfold pyStrip
  rw [hct]
  obtain ⟨a', ha'⟩ := dropWhile_append_nonWS g c0 cr hc0
  rw [ha', ← hct, hxt]
  have hb := dropTrailWS_append_nonWS (a' ++ x) d [] hd
  rw [List.append_assoc] at hb
  rw [hb]
  exact ⟨a', by simp [List.append_assoc, show dropTrailWS ([] : Str) = [] from rfl]⟩

theorem collapseWS_suffix_keep {t s : Str} (h : t <:+ s)
    (hc : cleanFrom false t = true) (hh : headNonWS t = true) :
    t <:+ collapseWS s := by
  obtain ⟨g, rfl⟩ := h
  obtain ⟨out, hout⟩ := collapseWSAux_append_suffix g false t hc hh
  exact ⟨out, hout.symm⟩

theorem joinSep_concat_suffix :
    ∀ (L : List Str) (x : Str) (sep : Str), x <:+ joinSep sep (L ++ [x]) := by
  intro L
  induction L with
  | nil => intro x sep; exact ⟨[], by simp [joinSep]⟩
  | cons y L' ih =>
    intro x sep
    cases L' with
    | nil =>
      exact ⟨y ++ sep, by simp [joinSep, List.append_assoc]⟩
    | cons z L'' =>
      obtain ⟨s, hs⟩ := ih x sep
      refine ⟨y ++ sep ++ s, ?_⟩
      rw [show ((y :: z :: L'') ++ [x] : List Str) = y :: z :: (L'' ++ [x]) from rfl]
      rw [show joinSep sep (y :: z :: (L'' ++ [x])) =
          y ++ sep ++ joinSep sep (z :: (L'' ++ [x])) from rfl]
      rw [show ((z :: L'') ++ [x] : List Str) = z :: (L'' ++ [x]) from rfl] at hs
      rw [← hs]
      simp [List.append_assoc]

theorem cleanup_spaces_suffix_keep {t s : Str} (h : t <:+ s)
    (hc : cleanFrom false t = true) (hh : headNonWS t = true)
    (hl : lastNonWS t = true) : t <:+ cleanup_spaces s :=
  pyStrip_suffix_keep (collapseWS_suffix_keep h hc hh) hh hl

set_option maxRecDepth 8000 in
/-- C9 counterexample: the literal reading of the claim fails, because a
profile field can itself contain the clause text.  With title
`"Experienced in testing"`, no achievements and no job description, the
template summary does contain the substring `"Experienced in"`. -/
theorem C9_counterexample_clause_injection :
    "Experienced in".data <:+:
      generate_summary_template
        { full_name := [], title := "Experienced in testing".data,
          years_experience := 0, core_skills := [] } none none := by
  decide

/-- C9 amended: for a profile with no achievements and no job description,
the composer assembles an empty achievement clause and an empty
job-description hint clause — so neither a "Proven track record including:"
nor an "Experienced in" clause is emitted by the template itself (the
original substring phrasing fails only when a profile field contains the
clause text, see the counterexample) — and the fixed closing sentence is a
suffix of the summary. -/
theorem C9_amended_no_clause_and_closing (profile : CandidateProfile)
    (tt : Option Str) (h : profile.achievements = []) :
    summary_achievement_line profile = [] ∧
    summary_jd_hint profile none = [] ∧
    summaryClosing <:+ generate_summary_template profile tt none := by
  refine ⟨?_, rfl, ?_⟩
  · unfold summary_achievement_line
    rw [h]
  · unfold generate_summary_template
    have hparts : summary_parts profile tt none =
        (summary_parts profile tt none).dropLast ++ [summaryClosing] := by
      unfold summary_parts
      rfl
    have hfilter : (summary_parts profile tt none).filter (fun p => decide (p ≠ [])) =
        ((summary_parts profile tt none).dropLast.filter (fun p => decide (p ≠ []))) ++
          [summaryClosing] := by
      conv_lhs => rw [hparts]
      rw [List.filter_append]
      congr 1
    rw [hfilter]
    have hsuf : summaryClosing <:+ joinSep " ".data
        (((summary_parts profile tt none).dropLast.filter
          (fun p => decide (p ≠ []))) ++ [summaryClosing]) :=
      joinSep_concat_suffix _ _ _
    have h1 := pyStrip_suffix_keep hsuf (by decide) (by decide)
    exact cleanup_spaces_suffix_keep h1 (by decide) (by decide) (by decide)

/-- Witness for the amended C9 at a concrete profile. -/
theorem C9_amended_witness :
    summaryClosing <:+ generate_summary_template
      { full_name := [], title := "Dev".data, years_experience := 2,
        core_skills := [] } none none :=
  (C9_amended_no_clause_and_closing
    { full_name := [], title := "Dev".data, years_experience := 2,
      core_skills := [] } none rfl).2.2

/-! ### Lines survive `_cleanup_spaces_preserve_paragraphs` -/

theorem splitlinesAux_cons (flag : Bool) (acc : Str) (c : Char) (cs : Str) :
    splitlinesAux flag acc (c :: cs) =
      if flag ∧ c = '\n' then splitlinesAux false acc cs
      else if c = '\r' then acc.reverse :: splitlinesAux true [] cs
      else if isLineBreak c then acc.reverse :: splitlinesAux false [] cs
      else splitlinesAux false (c :: acc) cs := rfl

/-- Lines produced after an (unconsumed) `'\n'` are a tail of the full
line list. -/
theorem splitlinesAux_break_append (b : Str) :
    ∀ (a : Str) (flag : Bool) (acc : Str), (flag = true → a ≠ []) →
      ∃ out, splitlinesAux flag acc (a ++ '\n' :: b) =
        out ++ splitlinesAux false [] b := by
  intro a
  induction a with
  | nil =>
    intro flag acc hflag
    have hf : flag = false := by
      cases flag
      · rfl
      · exact absurd rfl (fun h => (hflag h) rfl)
    subst hf
    rw [List.nil_append, splitlinesAux_cons]
    rw [if_neg (by simp), if_neg (by decide), if_pos (by decide)]
    exact ⟨[acc.reverse], rfl⟩
  | cons x a' ih =>
    intro flag acc hflag
    rw [List.cons_append, splitlinesAux_cons]
    by_cases h1 : flag ∧ x = '\n'
    · rw [if_pos h1]
      exact ih false acc (by intro h; cases h)
    · rw [if_neg h1]
      by_cases h2 : x = '\r'
      · rw [if_pos h2]
        cases a' with
        | nil =>
          refine ⟨[acc.reverse], ?_⟩
          rw [List.nil_append, splitlinesAux_cons]
          rw [if_pos (by exact ⟨rfl, rfl⟩)]
          rfl
        | cons y a'' =>
          obtain ⟨out, hout⟩ := ih true [] (by intro _; exact List.cons_ne_nil y a'')
          exact ⟨acc.reverse :: out, by rw [hout]; rfl⟩
      · rw [if_neg h2]
        by_cases h3 : isLineBreak x = true
        · rw [if_pos h3]
          obtain ⟨out, hout⟩ := ih false [] (by intro h; cases h)
          exact ⟨acc.reverse :: out, by rw [hout]; rfl⟩
        · rw [if_neg h3]
          exact ih false (x :: acc) (by intro h; cases h)

/-- A break-free chunk is accumulated into the current line. -/
theorem splitlinesAux_chunk :
    ∀ (t : Str), (∀ c ∈ t, isLineBreak c = false) →
      ∀ (acc r : Str), splitlinesAux false acc (t ++ r) =
        splitlinesAux false (t.reverse ++ acc) r := by
  intro t
  induction t with
  | nil => intro _ acc r; simp
  | cons c t' ih =>
    intro hnb acc r
    have hc : isLineBreak c = false := hnb c (List.mem_cons_self _ _)
    have hcr : c ≠ '\r' := by
      intro h
      subst h
      exact absurd hc (by decide)
    rw [List.cons_append, splitlinesAux_cons]
    rw [if_neg (by simp), if_neg hcr, if_neg (by simp [hc])]
    rw [ih (fun d hd => hnb d (List.mem_cons_of_mem c hd)) (c :: acc) r]
    congr 1
    simp [List.append_assoc]

/-- Some produced line extends the current accumulator. -/
theorem splitlinesAux_mem_pre :
    ∀ (r : Str) (flag : Bool) (acc : Str), acc ≠ [] →
      ∃ l, l ∈ splitlinesAux flag acc r ∧ acc.reverse <+: l := by
  intro r
  induction r with
  | nil =>
    intro flag acc hacc
    obtain ⟨a0, as, rfl⟩ : ∃ a0 as, acc = a0 :: as := by
      cases acc with
      | nil => exact absurd rfl hacc
      | cons a0 as => exact ⟨a0, as, rfl⟩
    exact ⟨(a0 :: as).reverse, List.mem_singleton.mpr rfl, ⟨[], List.append_nil _⟩⟩
  | cons c r' ih =>
    intro flag acc hacc
    rw [splitlinesAux_cons]
    by_cases h1 : flag ∧ c = '\n'
    · rw [if_pos h1]
      exact ih false acc hacc
    · rw [if_neg h1]
      by_cases h2 : c = '\r'
      · rw [if_pos h2]
        exact ⟨acc.reverse, List.mem_cons_self _ _, ⟨[], List.append_nil _⟩⟩
      · rw [if_neg h2]
        by_cases h3 : isLineBreak c = true
        · rw [if_pos h3]
          exact ⟨acc.reverse, List.mem_cons_self _ _, ⟨[], List.append_nil _⟩⟩
        · rw [if_neg h3]
          obtain ⟨l, hl, hp⟩ := ih false (c :: acc) (List.cons_ne_nil c acc)
          refine ⟨l, hl, ?_⟩
          obtain ⟨u, hu⟩ := hp
          refine ⟨[c] ++ u, ?_⟩
          rw [← hu]
          simp [List.append_assoc]

theorem collapseNLAux_cons (k : Nat) (c : Char) (cs : Str) :
    collapseNLAux k (c :: cs) =
      if c = '\n' then
        (if k < 2 then '\n' :: collapseNLAux (k + 1) cs else collapseNLAux k cs)
      else c :: collapseNLAux 0 cs := rfl

theorem collapseNLAux_pre_keep :
    ∀ (s : Str) (k : Nat) (t : Str), '\n' ∉ t → t <+: s →
      t <+: collapseNLAux k s := by
  intro s
  induction s with
  | nil =>
    intro k t _ h
    obtain ⟨u, hu⟩ := h
    rcases List.append_eq_nil.mp hu with ⟨rfl, _⟩
    exact ⟨collapseNLAux k [], rfl⟩
  | cons c s' ih =>
    intro k t hnl h
    cases t with
    | nil => exact ⟨collapseNLAux k (c :: s'), rfl⟩
    | cons d t' =>
      obtain ⟨u, hu⟩ := h
      rw [List.cons_append] at hu
      injection hu with hdc hu'
      subst hdc
      have hdn : d ≠ '\n' := fun h' => hnl (h' ▸ List.mem_cons_self _ _)
      rw [collapseNLAux_cons, if_neg hdn]
      obtain ⟨v, hv⟩ := ih 0 t' (fun h' => hnl (List.mem_cons_of_mem _ h')) ⟨u, hu'⟩
      exact ⟨v, by rw [List.cons_append, hv]⟩

theorem collapseNLAux_sub_keep :
    ∀ (s : Str) (k : Nat) (t : Str), '\n' ∉ t → t ≠ [] → t <:+: s →
      t <:+: collapseNLAux k s := by
  intro s
  induction s with
  | nil =>
    intro k t _ hne h
    obtain ⟨u, v, huv⟩ := h
    rcases List.append_eq_nil.mp huv with ⟨h1, _⟩
    rcases List.append_eq_nil.mp h1 with ⟨_, h2⟩
    exact absurd h2 hne
  | cons c s' ih =>
    intro k t hnl hne h
    rcases sub_of_cons h with hpre | hsub
    · have : t <+: collapseNLAux k (c :: s') := collapseNLAux_pre_keep _ k t hnl hpre
      obtain ⟨u, hu⟩ := this
      exact ⟨[], u, by simpa using hu⟩
    · by_cases h1 : c = '\n'
      · subst h1
        rw [collapseNLAux_cons, if_pos rfl]
        by_cases h2 : k < 2
        · rw [if_pos h2]
          obtain ⟨u, v, huv⟩ := ih (k + 1) t hnl hne hsub
          exact ⟨'\n' :: u, v, by rw [← huv]; rfl⟩
        · rw [if_neg h2]
          exact ih k t hnl hne hsub
      · rw [collapseNLAux_cons, if_neg h1]
        obtain ⟨u, v, huv⟩ := ih 0 t hnl hne hsub
        exact ⟨c :: u, v, by rw [← huv]; rfl⟩

theorem pyStrip_sub_keep {t s : Str} (h : t <:+: s)
    (hh : headNonWS t = true) (hl : lastNonWS t = true) : t <:+: pyStrip s := by
  obtain ⟨g, e, rfl⟩ := h
  obtain ⟨c0, cr, hct, hc0⟩ := headNonWS_split hh
  obtain ⟨x, d, hxt, hd⟩ := lastNonWS_split hl
  unfold pyStrip
  rw [show g ++ t ++ e = g ++ c0 :: (cr ++ e) from by
    rw [hct]; simp [List.append_assoc]]
  obtain ⟨a', ha'⟩ := dropWhile_append_nonWS g c0 (cr ++ e) hc0
  rw [ha']
  rw [show a' ++ c0 :: (cr ++ e) = (a' ++ x) ++ d :: e from by
    rw [show c0 :: (cr ++ e) = (c0 :: cr) ++ e from rfl, ← hct, hxt]
    simp [List.append_assoc]]
  rw [dropTrailWS_append_nonWS (a' ++ x) d e hd]
  refine ⟨a', dropTrailWS e, ?_⟩
  rw [hxt]
  simp [List.append_assoc]

/-- A clean chunk followed by a space is a prefix of its cleaned line. -/
theorem clean_line_pre {tl w : Str} (hc : cleanFrom false tl = true)
    (hh : headNonWS tl = true) (hl : lastNonWS tl = true)
    (hend : endSt false tl = false) :
    tl <+: pyStrip (collapseWS (tl ++ ' ' :: w)) := by
  unfold collapseWS
  rw [collapseWSAux_clean_append tl false (' ' :: w) hc, hend]
  rw [show collapseWSAux false (' ' :: w) = ' ' :: collapseWSAux true w from by
    rw [collapseWSAux_cons, if_pos (by decide), if_neg (by simp)]]
  unfold pyStrip
  obtain ⟨c0, cr, hct, hc0⟩ := headNonWS_split hh
  rw [show tl ++ ' ' :: collapseWSAux true w =
      c0 :: (cr ++ ' ' :: collapseWSAux true w) from by
    rw [hct]; simp]
  rw [List.dropWhile_cons, if_neg (by simp [hc0])]
  obtain ⟨x, d, hxt, hd⟩ := lastNonWS_split hl
  rw [show c0 :: (cr ++ ' ' :: collapseWSAux true w) =
      x ++ d :: (' ' :: collapseWSAux true w) from by
    rw [show c0 :: (cr ++ ' ' :: collapseWSAux true w) =
        (c0 :: cr) ++ ' ' :: collapseWSAux true w from rfl, ← hct, hxt]
    simp [List.append_assoc]]
  rw [dropTrailWS_append_nonWS x d _ hd]
  exact ⟨dropTrailWS (' ' :: collapseWSAux true w), by rw [hxt]; simp⟩

theorem joinSep_mem_sub :
    ∀ (L : List Str) (l sep : Str), l ∈ L → l <:+: joinSep sep L := by
  intro L
  induction L with
  | nil => intro l sep h; exact absurd h (List.not_mem_nil l)
  | cons y L' ih =>
    intro l sep h
    cases L' with
    | nil =>
      rcases List.mem_singleton.mp h with rfl
      exact ⟨[], [], by simp [joinSep]⟩
    | cons z L'' =>
      rcases List.mem_cons.mp h with rfl | h'
      · refine ⟨[], sep ++ joinSep sep (z :: L''), ?_⟩
        rw [show joinSep sep (l :: z :: L'') =
            l ++ sep ++ joinSep sep (z :: L'') from rfl]
        simp [List.append_assoc]
      · obtain ⟨u, v, huv⟩ := ih l sep h'
        refine ⟨y ++ sep ++ u, v, ?_⟩
        rw [show joinSep sep (y :: z :: L'') =
            y ++ sep ++ joinSep sep (z :: L'') from rfl, ← huv]
        simp [List.append_assoc]

/-- The tone line of `_generate_cover_letter_template` survives the final
cleanup and occurs in the returned letter. -/
theorem tone_line_sub_letter (data : CoverLetterInput) (jd : Option Str)
    (tone : Str) :
    tone_line_of tone <:+: generate_cover_letter_template data jd tone := by
  have hfacts : ('\n' ∉ tone_line_of tone) ∧
      (∀ c ∈ tone_line_of tone, isLineBreak c = false) ∧
      cleanFrom false (tone_line_of tone) = true ∧
      headNonWS (tone_line_of tone) = true ∧
      lastNonWS (tone_line_of tone) = true ∧
      endSt false (tone_line_of tone) = false ∧
      tone_line_of tone ≠ [] := by
    unfold tone_line_of
    split_ifs <;> exact ⟨by decide, by decide, by decide, by decide, by decide,
      by decide, by decide⟩
  obtain ⟨hnl, hnb, hcf, hhd, hls, hes, hne⟩ := hfacts
  set tl := tone_line_of tone with htl
  have hbody : cover_letter_body data jd tone =
      (cover_letter_pre data jd ++ ['\n']) ++
        '\n' :: (tl ++ ' ' ::
          ("Thank you for considering my application. I look forward to the possibility of discussing how my experience and skills can support ".data ++
            data.company_name ++ ".".data ++ "\n\nSincerely,\n".data ++
            data.full_name ++ "\n".data)) := by
    unfold cover_letter_body cover_letter_post
    simp [List.append_assoc]
  set R := "Thank you for considering my application. I look forward to the possibility of discussing how my experience and skills can support ".data ++
      data.company_name ++ ".".data ++ "\n\nSincerely,\n".data ++
      data.full_name ++ "\n".data with hR
  obtain ⟨out, hout⟩ := splitlinesAux_break_append (tl ++ ' ' :: R)
    (cover_letter_pre data jd ++ ['\n']) false [] (by intro h; cases h)
  have hchunk : splitlinesAux false [] (tl ++ ' ' :: R) =
      splitlinesAux false ((tl ++ [' ']).reverse) R := by
    rw [show tl ++ ' ' :: R = (tl ++ [' ']) ++ R from by simp]
    rw [splitlinesAux_chunk (tl ++ [' ']) ?_ [] R]
    · rw [List.append_nil]
    · intro c hc
      rcases List.mem_append.mp hc with h' | h'
      · exact hnb c h'
      · rcases List.mem_singleton.mp h' with rfl
        decide
  obtain ⟨l, hlmem, hlpre⟩ := splitlinesAux_mem_pre R false
    ((tl ++ [' ']).reverse) (by simp)
  rw [List.reverse_reverse] at hlpre
  have hlmem' : l ∈ splitlines (cover_letter_body data jd tone) := by
    unfold splitlines
    rw [hbody, hout, hchunk]
    exact List.mem_append_right out hlmem
  obtain ⟨w, hw⟩ := hlpre
  have hl' : l = tl ++ ' ' :: w := by rw [← hw]; simp
  have hpre2 : tl <+: pyStrip (collapseWS l) := by
    rw [hl']
    exact clean_line_pre hcf hhd hls hes
  have hsub3 : tl <:+: joinSep ['\n']
      ((splitlines (cover_letter_body data jd tone)).map
        (fun line => pyStrip (collapseWS line))) := by
    have hmem2 : pyStrip (collapseWS l) ∈
        (splitlines (cover_letter_body data jd tone)).map
          (fun line => pyStrip (collapseWS line)) :=
      List.mem_map_of_mem _ hlmem'
    refine sub_trans ?_ (joinSep_mem_sub _ _ ['\n'] hmem2)
    obtain ⟨u, hu⟩ := hpre2
    exact ⟨[], u, by simpa using hu⟩
  have hsub4 : tl <:+: collapseNL (joinSep ['\n']
      ((splitlines (cover_letter_body data jd tone)).map
        (fun line => pyStrip (collapseWS line)))) :=
    collapseNLAux_sub_keep _ 0 tl hnl hne hsub3
  exact pyStrip_sub_keep hsub4 hhd hls

/-- C8: the closing sentence of the template cover letter is selected by
the tone policy: `warm`/`friendly` (case-insensitively) yield the
energy/commitment sentence, `confident`/`assertive` the measurable-outcomes
sentence, and every other tone — including the default `professional` and
unknown values — the generic support/results sentence; the selected
sentence occurs verbatim in the letter. -/
theorem C8_tone_policy_selects_closing_sentence (data : CoverLetterInput)
    (jd : Option Str) (tone : Str) :
    ((tone.map pyToLower = "warm".data ∨ tone.map pyToLower = "friendly".data) →
      "I’d welcome the chance to bring my energy and commitment to your team.".data
        <:+: generate_cover_letter_template data jd tone) ∧
    ((tone.map pyToLower = "confident".data ∨
        tone.map pyToLower = "assertive".data) →
      "I am confident I can deliver immediate value and measurable outcomes in this position.".data
        <:+: generate_cover_letter_template data jd tone) ∧
    ((tone.map pyToLower ≠ "warm".data ∧ tone.map pyToLower ≠ "friendly".data ∧
        tone.map pyToLower ≠ "confident".data ∧
        tone.map pyToLower ≠ "assertive".data) →
      "I would welcome the opportunity to support your team and deliver measurable results.".data
        <:+: generate_cover_letter_template data jd tone) := by
  refine ⟨?_, ?_, ?_⟩
  · intro h
    have hm := tone_line_sub_letter data jd tone
    unfold tone_line_of at hm
    rw [if_pos h] at hm
    exact hm
  · intro h
    have hm := tone_line_sub_letter data jd tone
    unfold tone_line_of at hm
    rw [if_neg (by rcases h with h | h <;> simp [h]), if_pos h] at hm
    exact hm
  · intro h
    have hm := tone_line_sub_letter data jd tone
    unfold tone_line_of at hm
    rw [if_neg (by simp [h.1, h.2.1]), if_neg (by simp [h.2.2.1, h.2.2.2])] at hm
    exact hm

/-- Witness for C8 with the `confident` tone at a concrete input. -/
theorem C8_witness :
    "I am confident I can deliver immediate value and measurable outcomes in this position.".data
      <:+: generate_cover_letter_template
        { full_name := [], target_role := "Dev".data,
          company_name := "Acme".data, years_experience := 1 }
        none "confident".data :=
  (C8_tone_policy_selects_closing_sentence
    { full_name := [], target_role := "Dev".data,
      company_name := "Acme".data, years_experience := 1 }
    none "confident".data).2.1 (Or.inl (by decide))

end ResumeBuilder
